import Mathlib

/-!
# Verification of the SiFive UART model (`src/hw/riscv/sifive_uart.c`)

A shallow embedding of the UART controller core: the device state, the
register read/write dispatch (`uart_read` / `uart_write`), the inbound
byte delivery path (`uart_rx`), the flow-control query (`uart_can_rx`)
and the interrupt re-evaluation (`update_irq`), together with theorems
about them.

Machine integers are modelled as `Nat` with explicit `% 2 ^ 32` /
`% 2 ^ 8` where the C code truncates; the receive FIFO (a `char [8]`
array plus a length counter in C, mutated by `memmove`) is modelled as a
`List Nat` whose head is the oldest byte; fatal `hw_error` calls are
modelled as the `Except.error` branch carrying the formatted message and
the offending address.
-/

namespace SiFiveUART

/-- Modelled from the spec: the register offsets.  The header
`hw/riscv/sifive_uart.h` defining the `SIFIVE_UART_*` offset constants is
not under `src/`; the values follow the external-interface register map
of the spec (offset 0x00). -/
def SIFIVE_UART_RXFIFO : Nat := 0x00

/-- Modelled from the spec: TXFIFO register offset 0x04 (header not in
`src/`). -/
def SIFIVE_UART_TXFIFO : Nat := 0x04

/-- Modelled from the spec: IE register offset 0x08 (header not in
`src/`). -/
def SIFIVE_UART_IE : Nat := 0x08

/-- Modelled from the spec: IP register offset 0x0C (header not in
`src/`). -/
def SIFIVE_UART_IP : Nat := 0x0C

/-- Modelled from the spec: TXCTRL register offset 0x10 (header not in
`src/`). -/
def SIFIVE_UART_TXCTRL : Nat := 0x10

/-- Modelled from the spec: RXCTRL register offset 0x14 (header not in
`src/`). -/
def SIFIVE_UART_RXCTRL : Nat := 0x14

/-- Modelled from the spec: DIV register offset 0x18 (header not in
`src/`). -/
def SIFIVE_UART_DIV : Nat := 0x18

/-- Modelled from the spec: the receive-watermark interrupt-enable bit
`SIFIVE_UART_IE_RXWM` (header not in `src/`).  The spec treats it as a
single named boolean flag whose bit position matches the real device
(bit 1), so its value is 2; the development only relies on it being a
fixed nonzero mask. -/
def SIFIVE_UART_IE_RXWM : Nat := 2

/-- Modelled from the spec: the receive-watermark interrupt-pending bit
`SIFIVE_UART_IP_RXWM` (header not in `src/`), mirroring the enable bit. -/
def SIFIVE_UART_IP_RXWM : Nat := 2

/-- The receive FIFO capacity: `sizeof(s->rx_fifo)` with
`char rx_fifo[8]` (the spec fixes the capacity at 8). -/
def RX_FIFO_CAPACITY : Nat := 8

/-- The device state `SiFiveUARTState`.  `rx_fifo` models the byte array
together with `rx_fifo_len` (the list length); its head is the oldest
byte, index 0 of the C array.  `irq` is the level of the external
interrupt line the controller drives through `qemu_irq_raise` /
`qemu_irq_lower`; it is recorded here so that theorems can speak about
the line state after each operation. -/
structure SiFiveUARTState where
  rx_fifo : List Nat
  ie : Nat
  txctrl : Nat
  rxctrl : Nat
  div : Nat
  irq : Bool
deriving DecidableEq

/-- The zeroed state produced by `sifive_uart_create` (`g_malloc0`): all
registers 0, FIFO empty, interrupt line low. -/
def init_state : SiFiveUARTState :=
  { rx_fifo := [], ie := 0, txctrl := 0, rxctrl := 0, div := 0, irq := false }

/-- `update_irq`: raise the line iff `(s->ie & SIFIVE_UART_IE_RXWM) &&
s->rx_fifo_len`, else lower it. -/
def update_irq (s : SiFiveUARTState) : SiFiveUARTState :=
  let cond : Bool := ((s.ie &&& SIFIVE_UART_IE_RXWM) != 0) && (s.rx_fifo.length != 0)
  { s with irq := cond }

/-- A fatal `hw_error` call: the formatted message and the offending
address (the message embeds the address in hexadecimal, as `%x` does). -/
structure HwError where
  msg : String
  addr : Nat
deriving DecidableEq

/-- Hexadecimal rendering of a natural number, for the `%x` conversions
in the `hw_error` format strings. -/
def hexStr (n : Nat) : String := String.mk (Nat.toDigits 16 n)

/-- The `hw_error` raised by `uart_read` on an unknown offset. -/
def hw_error_read (addr : Nat) : HwError :=
  { msg := "uart_read: bad read: addr=0x" ++ hexStr addr, addr := addr }

/-- The `hw_error` raised by `uart_write` on an unknown offset. -/
def hw_error_write (addr : Nat) (value : Nat) : HwError :=
  { msg := "uart_write: bad write: addr=0x" ++ hexStr addr ++ " v=0x" ++ hexStr value
    addr := addr }

/-- Result of a successful `uart_read`: the returned 64-bit value, the
post state, and whether `qemu_chr_fe_accept_input` was invoked on the
backend. -/
structure ReadOutput where
  value : Nat
  state : SiFiveUARTState
  acceptInput : Bool
deriving DecidableEq

/-- Result of a successful `uart_write`: the post state and the byte
passed to `qemu_chr_fe_write` (the backend outbound path), if any. -/
structure WriteOutput where
  state : SiFiveUARTState
  txByte : Option Nat
deriving DecidableEq

/-- Result of `uart_rx`: the post state and whether the overrun warning
(`printf("WARNING: UART dropped char.\n")`) was emitted. -/
structure RxOutput where
  state : SiFiveUARTState
  warned : Bool
deriving DecidableEq

/-- `uart_read(opaque, addr, size)`.  The RXFIFO case with a non-empty
FIFO takes `r = rx_fifo[0]`, shifts the remaining bytes down
(`memmove`), decrements the length — together: the list tail — then
notifies the backend (`qemu_chr_fe_accept_input`) and re-evaluates the
interrupt line; with an empty FIFO it returns `0x80000000` and leaves
the state alone.  Unknown offsets reach `hw_error`.  `size` is unused,
as in the C code. -/
def uart_read (s : SiFiveUARTState) (addr : Nat) (size : Nat) :
    Except HwError ReadOutput :=
  if addr = SIFIVE_UART_RXFIFO then
    match s.rx_fifo with
    | r :: rest =>
        Except.ok { value := r
                    state := update_irq { s with rx_fifo := rest }
                    acceptInput := true }
    | [] => Except.ok { value := 0x80000000, state := s, acceptInput := false }
  else if addr = SIFIVE_UART_TXFIFO then
    Except.ok { value := 0, state := s, acceptInput := false }
  else if addr = SIFIVE_UART_IE then
    Except.ok { value := s.ie, state := s, acceptInput := false }
  else if addr = SIFIVE_UART_IP then
    Except.ok { value := if s.rx_fifo.length != 0 then SIFIVE_UART_IP_RXWM else 0
                state := s, acceptInput := false }
  else if addr = SIFIVE_UART_TXCTRL then
    Except.ok { value := s.txctrl, state := s, acceptInput := false }
  else if addr = SIFIVE_UART_RXCTRL then
    Except.ok { value := s.rxctrl, state := s, acceptInput := false }
  else if addr = SIFIVE_UART_DIV then
    Except.ok { value := s.div, state := s, acceptInput := false }
  else
    Except.error (hw_error_read addr)

/-- `uart_write(opaque, addr, val64, size)`.  `value` is the `uint32_t`
truncation of `val64` and `ch` its low byte.  TXFIFO hands `ch` to
`qemu_chr_fe_write`; IE stores the truncated value and re-evaluates the
interrupt line; TXCTRL / RXCTRL / DIV store the truncated value with no
other effect; every other offset — including the read-only RXFIFO and
IP offsets, which the switch does not mention — reaches `hw_error`.
`size` is unused, as in the C code. -/
def uart_write (s : SiFiveUARTState) (addr : Nat) (val64 : Nat) (size : Nat) :
    Except HwError WriteOutput :=
  let value : Nat := val64 % 2 ^ 32
  let ch : Nat := value % 2 ^ 8
  if addr = SIFIVE_UART_TXFIFO then
    Except.ok { state := s, txByte := some ch }
  else if addr = SIFIVE_UART_IE then
    Except.ok { state := update_irq { s with ie := val64 % 2 ^ 32 }, txByte := none }
  else if addr = SIFIVE_UART_TXCTRL then
    Except.ok { state := { s with txctrl := val64 % 2 ^ 32 }, txByte := none }
  else if addr = SIFIVE_UART_RXCTRL then
    Except.ok { state := { s with rxctrl := val64 % 2 ^ 32 }, txByte := none }
  else if addr = SIFIVE_UART_DIV then
    Except.ok { state := { s with div := val64 % 2 ^ 32 }, txByte := none }
  else
    Except.error (hw_error_write addr value)

/-- `uart_rx(opaque, buf, size)`: if the FIFO already holds
`sizeof(s->rx_fifo)` = 8 or more bytes, warn and drop; otherwise append
`*buf` (the first byte of the buffer, a `uint8_t`) at the tail and
re-evaluate the interrupt line.  `size` and every byte after the first
are ignored, as in the C code. -/
def uart_rx (s : SiFiveUARTState) (buf : List Nat) (size : Int) : RxOutput :=
  if s.rx_fifo.length ≥ RX_FIFO_CAPACITY then
    { state := s, warned := true }
  else
    { state := update_irq { s with rx_fifo := s.rx_fifo ++ [buf.headD 0 % 2 ^ 8] }
      warned := false }

/-- `uart_can_rx(opaque)`: nonzero iff `s->rx_fifo_len <
sizeof(s->rx_fifo)`; the C `int` result is modelled as the `Bool` it
denotes.  It reads the state and returns, mutating nothing. -/
def uart_can_rx (s : SiFiveUARTState) : Bool :=
  s.rx_fifo.length < RX_FIFO_CAPACITY

/-- One externally triggered operation on the controller: a bus read, a
bus write (4-byte accesses, as the `MemoryRegionOps` valid range fixes
the access size to 4), or an inbound one-byte delivery from the
backend. -/
inductive Op where
  | read (addr : Nat)
  | write (addr : Nat) (val : Nat)
  | rx (b : Nat)
deriving DecidableEq

/-- The state after one operation.  A fatal `hw_error` terminates
emulation, so on the error branch the state is the unchanged pre
state. -/
def step (s : SiFiveUARTState) : Op → SiFiveUARTState
  | Op.read a =>
      match uart_read s a 4 with
      | Except.ok o => o.state
      | Except.error _ => s
  | Op.write a v =>
      match uart_write s a v 4 with
      | Except.ok o => o.state
      | Except.error _ => s
  | Op.rx b => (uart_rx s [b] 1).state

/-- Deliver one byte from the backend (a one-byte buffer, as the
character backend hands bytes to `uart_rx`). -/
def rx1 (s : SiFiveUARTState) (b : Nat) : SiFiveUARTState :=
  (uart_rx s [b] 1).state

/-- Deliver a sequence of bytes from the backend, oldest first. -/
def deliverAll (s : SiFiveUARTState) (bs : List Nat) : SiFiveUARTState :=
  bs.foldl rx1 s

/-- Perform `n` successive RXFIFO reads, collecting the returned values
in order.  (RXFIFO is a defined offset, so these reads never reach the
fatal path; the error branch is present only for totality.) -/
def readRxN : SiFiveUARTState → Nat → List Nat × SiFiveUARTState
  | s, 0 => ([], s)
  | s, n + 1 =>
      match uart_read s SIFIVE_UART_RXFIFO 4 with
      | Except.ok o =>
          let p := readRxN o.state n
          (o.value :: p.1, p.2)
      | Except.error _ => ([], s)

/-- The spec's pure function of `(ie, rx_fifo length)` for the
interrupt line: raised iff the receive-watermark-enable bit of `ie` is
set and the FIFO is non-empty. -/
def irqInv (s : SiFiveUARTState) : Prop :=
  s.irq = true ↔ (s.ie &&& SIFIVE_UART_IE_RXWM ≠ 0 ∧ 0 < s.rx_fifo.length)

instance (s : SiFiveUARTState) : Decidable (irqInv s) := by
  unfold irqInv; infer_instance

/-- The spec's FIFO length invariant: `0 ≤ rx_fifo length ≤ 8`. -/
def fifoLenInv (s : SiFiveUARTState) : Prop :=
  0 ≤ s.rx_fifo.length ∧ s.rx_fifo.length ≤ RX_FIFO_CAPACITY

instance (s : SiFiveUARTState) : Decidable (fifoLenInv s) := by
  unfold fifoLenInv; infer_instance

/-! ## Helper lemmas: how `step` acts in each case of the dispatch -/

theorem update_irq_rx_fifo (s : SiFiveUARTState) : (update_irq s).rx_fifo = s.rx_fifo := rfl

theorem irqInv_update_irq (s : SiFiveUARTState) : irqInv (update_irq s) := by
  simp [irqInv, update_irq, Bool.and_eq_true, bne_iff_ne, Nat.pos_iff_ne_zero]

theorem step_read_rxfifo_cons (s : SiFiveUARTState) (r : Nat) (rest : List Nat)
    (hf : s.rx_fifo = r :: rest) :
    step s (Op.read SIFIVE_UART_RXFIFO) = update_irq { s with rx_fifo := rest } := by
  simp [step, uart_read, hf]

theorem step_read_rxfifo_nil (s : SiFiveUARTState) (hf : s.rx_fifo = []) :
    step s (Op.read SIFIVE_UART_RXFIFO) = s := by
  simp [step, uart_read, hf]

theorem step_read_other (s : SiFiveUARTState) (a : Nat) (h : a ≠ SIFIVE_UART_RXFIFO) :
    step s (Op.read a) = s := by
  have hok : ∀ o, uart_read s a 4 = Except.ok o → o.state = s := by
    intro o ho
    simp only [uart_read, if_neg h] at ho
    repeat' split at ho
    all_goals first
      | (cases ho; rfl)
      | simp at ho
  cases hu : uart_read s a 4 with
  | error e => simp [step, hu]
  | ok o => simp [step, hu, hok o hu]

theorem step_write_txfifo (s : SiFiveUARTState) (v : Nat) :
    step s (Op.write SIFIVE_UART_TXFIFO v) = s := by
  simp [step, uart_write]

theorem step_write_ie (s : SiFiveUARTState) (v : Nat) :
    step s (Op.write SIFIVE_UART_IE v) = update_irq { s with ie := v % 2 ^ 32 } := by
  simp [step, uart_write, SIFIVE_UART_IE, SIFIVE_UART_TXFIFO]

theorem step_write_txctrl (s : SiFiveUARTState) (v : Nat) :
    step s (Op.write SIFIVE_UART_TXCTRL v) = { s with txctrl := v % 2 ^ 32 } := by
  simp [step, uart_write, SIFIVE_UART_TXCTRL, SIFIVE_UART_TXFIFO, SIFIVE_UART_IE]

theorem step_write_rxctrl (s : SiFiveUARTState) (v : Nat) :
    step s (Op.write SIFIVE_UART_RXCTRL v) = { s with rxctrl := v % 2 ^ 32 } := by
  simp [step, uart_write, SIFIVE_UART_RXCTRL, SIFIVE_UART_TXFIFO, SIFIVE_UART_IE,
    SIFIVE_UART_TXCTRL]

theorem step_write_div (s : SiFiveUARTState) (v : Nat) :
    step s (Op.write SIFIVE_UART_DIV v) = { s with div := v % 2 ^ 32 } := by
  simp [step, uart_write, SIFIVE_UART_DIV, SIFIVE_UART_TXFIFO, SIFIVE_UART_IE,
    SIFIVE_UART_TXCTRL, SIFIVE_UART_RXCTRL]

theorem step_write_other (s : SiFiveUARTState) (a v : Nat)
    (h1 : a ≠ SIFIVE_UART_TXFIFO) (h2 : a ≠ SIFIVE_UART_IE) (h3 : a ≠ SIFIVE_UART_TXCTRL)
    (h4 : a ≠ SIFIVE_UART_RXCTRL) (h5 : a ≠ SIFIVE_UART_DIV) :
    step s (Op.write a v) = s := by
  simp [step, uart_write, if_neg h1, if_neg h2, if_neg h3, if_neg h4, if_neg h5]

theorem step_rx_full (s : SiFiveUARTState) (b : Nat)
    (h : RX_FIFO_CAPACITY ≤ s.rx_fifo.length) :
    step s (Op.rx b) = s := by
  simp [step, uart_rx, h]

theorem step_rx_room (s : SiFiveUARTState) (b : Nat)
    (h : s.rx_fifo.length < RX_FIFO_CAPACITY) :
    step s (Op.rx b) = update_irq { s with rx_fifo := s.rx_fifo ++ [b % 2 ^ 8] } := by
  simp [step, uart_rx, Nat.not_le.mpr h]

theorem rx1_fifo (s : SiFiveUARTState) (b : Nat) (h : s.rx_fifo.length < RX_FIFO_CAPACITY) :
    (rx1 s b).rx_fifo = s.rx_fifo ++ [b % 2 ^ 8] := by
  simp [rx1, uart_rx, Nat.not_le.mpr h, update_irq]

theorem deliverAll_fifo (bs : List Nat) (s : SiFiveUARTState)
    (h : s.rx_fifo.length + bs.length ≤ RX_FIFO_CAPACITY) :
    (deliverAll s bs).rx_fifo = s.rx_fifo ++ bs.map (fun b => b % 2 ^ 8) := by
  induction bs generalizing s with
  | nil => simp [deliverAll]
  | cons b rest ih =>
      have hroom : s.rx_fifo.length < RX_FIFO_CAPACITY := by
        simp only [List.length_cons] at h; omega
      have hfifo := rx1_fifo s b hroom
      have hlen : (rx1 s b).rx_fifo.length + rest.length ≤ RX_FIFO_CAPACITY := by
        rw [hfifo]; simp only [List.length_append, List.length_singleton]
        simp only [List.length_cons] at h; omega
      calc (deliverAll s (b :: rest)).rx_fifo
          = (deliverAll (rx1 s b) rest).rx_fifo := by simp [deliverAll, List.foldl_cons]
        _ = (rx1 s b).rx_fifo ++ rest.map (fun b => b % 2 ^ 8) := ih (rx1 s b) hlen
        _ = s.rx_fifo ++ (b :: rest).map (fun b => b % 2 ^ 8) := by
              rw [hfifo]; simp

theorem readRxN_of_fifo (l : List Nat) (s : SiFiveUARTState) (h : s.rx_fifo = l) :
    (readRxN s l.length).1 = l := by
  induction l generalizing s with
  | nil => simp [readRxN]
  | cons r rest ih =>
      simp only [List.length_cons, readRxN, uart_read, if_pos rfl, h]
      exact congrArg (r :: ·) (ih (update_irq { s with rx_fifo := rest }) rfl)

/-! ## Claim theorems -/

/-- C1: for every sequence of inbound byte deliveries of length at most
the capacity 8, starting from the empty (initial) receive FIFO,
performing that many RXFIFO reads afterwards returns exactly the
delivered bytes in delivery order; each read returns the byte itself
(zero-extended, so the value equals the byte and bit 31 is clear). -/
theorem rx_fifo_ordering_law (bs : List Nat) (hlen : bs.length ≤ RX_FIFO_CAPACITY)
    (hbytes : ∀ b ∈ bs, b < 2 ^ 8) :
    (readRxN (deliverAll init_state bs) bs.length).1 = bs := by
  have hfifo : (deliverAll init_state bs).rx_fifo = bs := by
    have h0 : (init_state.rx_fifo.length + bs.length ≤ RX_FIFO_CAPACITY) := by
      simpa [init_state] using hlen
    rw [deliverAll_fifo bs init_state h0]
    simp only [init_state, List.nil_append]
    calc bs.map (fun b => b % 2 ^ 8) = bs.map id := by
          exact List.map_congr_left fun b hb => Nat.mod_eq_of_lt (hbytes b hb)
      _ = bs := List.map_id bs
  calc (readRxN (deliverAll init_state bs) bs.length).1
      = (readRxN (deliverAll init_state bs) (deliverAll init_state bs).rx_fifo.length).1 := by
        rw [hfifo]
    _ = (deliverAll init_state bs).rx_fifo := readRxN_of_fifo _ _ rfl
    _ = bs := hfifo

theorem rx_fifo_ordering_law_witness :
    (readRxN (deliverAll init_state [0x41, 0x42, 0x43]) 3).1 = [0x41, 0x42, 0x43] :=
  rx_fifo_ordering_law [0x41, 0x42, 0x43] (by decide) (by decide)

/-- C3: with the receive FIFO at capacity (8 bytes), an inbound
delivery returns normally with the state — FIFO contents, length, and
everything else — exactly unchanged, and the diagnostic warning
emitted; `uart_rx` is total, so no error reaches the caller or the
backend. -/
theorem rx_overrun_drops (s : SiFiveUARTState) (buf : List Nat) (size : Int)
    (h : s.rx_fifo.length = 8) :
    uart_rx s buf size = { state := s, warned := true } := by
  simp [uart_rx, RX_FIFO_CAPACITY, h]

theorem rx_overrun_drops_witness :
    uart_rx
      { rx_fifo := [1, 2, 3, 4, 5, 6, 7, 8], ie := 2, txctrl := 0, rxctrl := 0, div := 0
        irq := true } [9] 1 =
      { state := { rx_fifo := [1, 2, 3, 4, 5, 6, 7, 8], ie := 2, txctrl := 0, rxctrl := 0
                   div := 0, irq := true }
        warned := true } :=
  rx_overrun_drops _ [9] 1 (by decide)

/-- C4: reading RXFIFO with an empty FIFO returns the sentinel
`0x80000000` (bit 31 set) and the state — FIFO, every register, and the
interrupt line — exactly unchanged, with no backend notification. -/
theorem rxfifo_read_empty_sentinel (s : SiFiveUARTState) (size : Nat) (h : s.rx_fifo = []) :
    uart_read s SIFIVE_UART_RXFIFO size =
      Except.ok { value := 0x80000000, state := s, acceptInput := false } := by
  simp [uart_read, h]

theorem rxfifo_read_empty_sentinel_witness :
    uart_read init_state SIFIVE_UART_RXFIFO 4 =
      Except.ok { value := 0x80000000, state := init_state, acceptInput := false } :=
  rxfifo_read_empty_sentinel init_state 4 rfl

/-- C6: writing any value to TXFIFO hands exactly the low byte of the
value to the backend outbound path (`qemu_chr_fe_write`) and returns
the state — receive FIFO, all registers, and the interrupt line —
exactly unchanged. -/
theorem txfifo_write_forwards_low_byte (s : SiFiveUARTState) (v : Nat) (size : Nat) :
    uart_write s SIFIVE_UART_TXFIFO v size =
      Except.ok { state := s, txByte := some (v % 2 ^ 8) } := by
  have hmod : v % 4294967296 % 256 = v % 256 := Nat.mod_mod_of_dvd v (by norm_num)
  simp [uart_write, hmod]

/-- C9: the backend flow-control query `uart_can_rx` answers true
exactly when the FIFO length is strictly below the capacity 8; it is a
pure function of the state and mutates nothing. -/
theorem can_rx_iff_below_capacity (s : SiFiveUARTState) :
    uart_can_rx s = true ↔ s.rx_fifo.length < 8 := by
  simp [uart_can_rx, RX_FIFO_CAPACITY]

/-- C10: an inbound delivery carrying a buffer of one or more bytes
appends exactly the first byte of the buffer to the FIFO tail (when the
FIFO is not full); the `size` argument and all bytes after the first
are ignored, so the call is indistinguishable from delivering the
one-byte buffer with any other size. -/
theorem rx_appends_first_byte (s : SiFiveUARTState) (b : Nat) (rest : List Nat)
    (size size2 : Int) (hroom : s.rx_fifo.length < RX_FIFO_CAPACITY) (hb : b < 2 ^ 8) :
    uart_rx s (b :: rest) size =
      { state := update_irq { s with rx_fifo := s.rx_fifo ++ [b] }, warned := false } ∧
    uart_rx s (b :: rest) size = uart_rx s [b] size2 := by
  have hb2 : b % 256 = b := Nat.mod_eq_of_lt (by simpa using hb)
  constructor <;> simp [uart_rx, Nat.not_le.mpr hroom, hb2]

theorem rx_appends_first_byte_witness :
    uart_rx init_state [0x41, 0x42, 0x43] 3 =
      { state := update_irq { init_state with rx_fifo := [0x41] }, warned := false } ∧
    uart_rx init_state [0x41, 0x42, 0x43] 3 = uart_rx init_state [0x41] 1 := by
  have h := rx_appends_first_byte init_state 0x41 [0x42, 0x43] 3 1 (by decide) (by decide)
  simpa [init_state] using h

/-- C2: the interrupt line is a pure function of `(ie, rx_fifo
length)` — raised iff `IE_RXWM` is set in `ie` and the FIFO is
non-empty.  The invariant holds in the initial state, is preserved by
every operation (register read, register write, inbound delivery), and
an IE write immediately re-evaluates the line against the new `ie` and
the bytes already buffered, with no new byte or read needed. -/
theorem irq_line_pure_of_state :
    irqInv init_state ∧
    (∀ (s : SiFiveUARTState) (op : Op), irqInv s → irqInv (step s op)) ∧
    (∀ (s : SiFiveUARTState) (v : Nat),
      uart_write s SIFIVE_UART_IE v 4 =
        Except.ok { state := update_irq { s with ie := v % 2 ^ 32 }, txByte := none } ∧
      ((update_irq { s with ie := v % 2 ^ 32 }).irq = true ↔
        (v % 2 ^ 32) &&& SIFIVE_UART_IE_RXWM ≠ 0 ∧ 0 < s.rx_fifo.length)) := by
  refine ⟨by decide, ?_, ?_⟩
  · intro s op h
    cases op with
    | read a =>
        by_cases ha : a = SIFIVE_UART_RXFIFO
        · subst ha
          cases hf : s.rx_fifo with
          | nil => rw [step_read_rxfifo_nil s hf]; exact h
          | cons r rest => rw [step_read_rxfifo_cons s r rest hf]; exact irqInv_update_irq _
        · rw [step_read_other s a ha]; exact h
    | write a v =>
        by_cases h1 : a = SIFIVE_UART_TXFIFO
        · subst h1; rw [step_write_txfifo]; exact h
        · by_cases h2 : a = SIFIVE_UART_IE
          · subst h2; rw [step_write_ie]; exact irqInv_update_irq _
          · by_cases h3 : a = SIFIVE_UART_TXCTRL
            · subst h3; rw [step_write_txctrl]; simpa [irqInv] using h
            · by_cases h4 : a = SIFIVE_UART_RXCTRL
              · subst h4; rw [step_write_rxctrl]; simpa [irqInv] using h
              · by_cases h5 : a = SIFIVE_UART_DIV
                · subst h5; rw [step_write_div]; simpa [irqInv] using h
                · rw [step_write_other s a v h1 h2 h3 h4 h5]; exact h
    | rx b =>
        by_cases hb : s.rx_fifo.length < RX_FIFO_CAPACITY
        · rw [step_rx_room s b hb]; exact irqInv_update_irq _
        · rw [step_rx_full s b (Nat.not_lt.mp hb)]; exact h
  · intro s v
    refine ⟨by simp [uart_write, SIFIVE_UART_IE, SIFIVE_UART_TXFIFO], ?_⟩
    have h := irqInv_update_irq { s with ie := v % 2 ^ 32 }
    simpa [irqInv] using h

theorem irq_line_pure_of_state_witness :
    irqInv (step init_state (Op.rx 0x41)) :=
  irq_line_pure_of_state.2.1 init_state (Op.rx 0x41) irq_line_pure_of_state.1

/-- C5: for any 32-bit value, writing TXCTRL, RXCTRL, or DIV stores
exactly that value in exactly that register — no other state changes,
no byte to the backend — and the subsequent read of the same register
returns it unchanged with no side effects. -/
theorem ctrl_div_write_read_roundtrip (s : SiFiveUARTState) (v : Nat) (hv : v < 2 ^ 32) :
    (uart_write s SIFIVE_UART_TXCTRL v 4 =
        Except.ok { state := { s with txctrl := v }, txByte := none } ∧
      uart_read { s with txctrl := v } SIFIVE_UART_TXCTRL 4 =
        Except.ok { value := v, state := { s with txctrl := v }, acceptInput := false }) ∧
    (uart_write s SIFIVE_UART_RXCTRL v 4 =
        Except.ok { state := { s with rxctrl := v }, txByte := none } ∧
      uart_read { s with rxctrl := v } SIFIVE_UART_RXCTRL 4 =
        Except.ok { value := v, state := { s with rxctrl := v }, acceptInput := false }) ∧
    (uart_write s SIFIVE_UART_DIV v 4 =
        Except.ok { state := { s with div := v }, txByte := none } ∧
      uart_read { s with div := v } SIFIVE_UART_DIV 4 =
        Except.ok { value := v, state := { s with div := v }, acceptInput := false }) := by
  have hm : v % 4294967296 = v := Nat.mod_eq_of_lt (by simpa using hv)
  refine ⟨⟨?_, ?_⟩, ⟨?_, ?_⟩, ⟨?_, ?_⟩⟩ <;>
    simp [uart_write, uart_read, hm, SIFIVE_UART_RXFIFO, SIFIVE_UART_TXFIFO, SIFIVE_UART_IE,
      SIFIVE_UART_IP, SIFIVE_UART_TXCTRL, SIFIVE_UART_RXCTRL, SIFIVE_UART_DIV]

theorem ctrl_div_write_read_roundtrip_witness :
    uart_write init_state SIFIVE_UART_DIV 0xDEADBEEF 4 =
      Except.ok { state := { init_state with div := 0xDEADBEEF }, txByte := none } ∧
    uart_read { init_state with div := 0xDEADBEEF } SIFIVE_UART_DIV 4 =
      Except.ok { value := 0xDEADBEEF, state := { init_state with div := 0xDEADBEEF }
                  acceptInput := false } :=
  (ctrl_div_write_read_roundtrip init_state 0xDEADBEEF (by decide)).2.2

/-- C7 counterexample: the claim states that no defined-offset access
reaches the fatal-error path, but a write to the defined offset 0x00
(RXFIFO, a read-only register that the write dispatch does not list)
reaches `hw_error`. -/
theorem defined_offset_write_reaches_fatal :
    uart_write init_state SIFIVE_UART_RXFIFO 0 4 =
      Except.error (hw_error_write SIFIVE_UART_RXFIFO 0) := rfl

/-- C7 amended: every offset outside the defined map is fatal for both
read and write, with the error reporting the offending address; every
defined-offset read succeeds, and writes to the writable registers
(TXFIFO, IE, TXCTRL, RXCTRL, DIV) succeed — but writes to the
read-only defined offsets RXFIFO and IP also reach the fatal path. -/
theorem unknown_offset_fatal (s : SiFiveUARTState) (a v sz : Nat)
    (h : a ∉ ([SIFIVE_UART_RXFIFO, SIFIVE_UART_TXFIFO, SIFIVE_UART_IE, SIFIVE_UART_IP,
      SIFIVE_UART_TXCTRL, SIFIVE_UART_RXCTRL, SIFIVE_UART_DIV] : List Nat)) :
    (uart_read s a sz = Except.error (hw_error_read a) ∧ (hw_error_read a).addr = a) ∧
    (uart_write s a v sz = Except.error (hw_error_write a (v % 2 ^ 32)) ∧
      (hw_error_write a (v % 2 ^ 32)).addr = a) ∧
    (∀ d ∈ ([SIFIVE_UART_RXFIFO, SIFIVE_UART_TXFIFO, SIFIVE_UART_IE, SIFIVE_UART_IP,
        SIFIVE_UART_TXCTRL, SIFIVE_UART_RXCTRL, SIFIVE_UART_DIV] : List Nat),
      ∃ o, uart_read s d sz = Except.ok o) ∧
    (∀ d ∈ ([SIFIVE_UART_TXFIFO, SIFIVE_UART_IE, SIFIVE_UART_TXCTRL, SIFIVE_UART_RXCTRL,
        SIFIVE_UART_DIV] : List Nat),
      ∃ o, uart_write s d v sz = Except.ok o) ∧
    (∃ e, uart_write s SIFIVE_UART_RXFIFO v sz = Except.error e) ∧
    (∃ e, uart_write s SIFIVE_UART_IP v sz = Except.error e) := by
  simp only [List.mem_cons, List.not_mem_nil, or_false, not_or] at h
  obtain ⟨h0, h1, h2, h3, h4, h5, h6⟩ := h
  refine ⟨⟨?_, rfl⟩, ⟨?_, rfl⟩, ?_, ?_, ?_, ?_⟩
  · simp [uart_read, if_neg h0, if_neg h1, if_neg h2, if_neg h3, if_neg h4, if_neg h5,
      if_neg h6]
  · simp [uart_write, if_neg h1, if_neg h2, if_neg h4, if_neg h5, if_neg h6]
  · intro d hd
    simp only [List.mem_cons, List.not_mem_nil, or_false] at hd
    rcases hd with rfl | rfl | rfl | rfl | rfl | rfl | rfl
    · cases hf : s.rx_fifo with
      | nil =>
          exact ⟨{ value := 0x80000000, state := s, acceptInput := false },
            by simp [uart_read, hf]⟩
      | cons r rest =>
          exact ⟨{ value := r, state := update_irq { s with rx_fifo := rest }
                   acceptInput := true },
            by simp [uart_read, hf]⟩
    · exact ⟨{ value := 0, state := s, acceptInput := false },
        by simp [uart_read, SIFIVE_UART_RXFIFO, SIFIVE_UART_TXFIFO]⟩
    · exact ⟨{ value := s.ie, state := s, acceptInput := false },
        by simp [uart_read, SIFIVE_UART_RXFIFO, SIFIVE_UART_TXFIFO, SIFIVE_UART_IE]⟩
    · exact ⟨{ value := if s.rx_fifo.length != 0 then SIFIVE_UART_IP_RXWM else 0
               state := s, acceptInput := false },
        by simp [uart_read, SIFIVE_UART_RXFIFO, SIFIVE_UART_TXFIFO, SIFIVE_UART_IE,
          SIFIVE_UART_IP]⟩
    · exact ⟨{ value := s.txctrl, state := s, acceptInput := false },
        by simp [uart_read, SIFIVE_UART_RXFIFO, SIFIVE_UART_TXFIFO, SIFIVE_UART_IE,
          SIFIVE_UART_IP, SIFIVE_UART_TXCTRL]⟩
    · exact ⟨{ value := s.rxctrl, state := s, acceptInput := false },
        by simp [uart_read, SIFIVE_UART_RXFIFO, SIFIVE_UART_TXFIFO, SIFIVE_UART_IE,
          SIFIVE_UART_IP, SIFIVE_UART_TXCTRL, SIFIVE_UART_RXCTRL]⟩
    · exact ⟨{ value := s.div, state := s, acceptInput := false },
        by simp [uart_read, SIFIVE_UART_RXFIFO, SIFIVE_UART_TXFIFO, SIFIVE_UART_IE,
          SIFIVE_UART_IP, SIFIVE_UART_TXCTRL, SIFIVE_UART_RXCTRL, SIFIVE_UART_DIV]⟩
  · intro d hd
    simp only [List.mem_cons, List.not_mem_nil, or_false] at hd
    rcases hd with rfl | rfl | rfl | rfl | rfl
    · exact ⟨{ state := s, txByte := some (v % 2 ^ 32 % 2 ^ 8) }, by simp [uart_write]⟩
    · exact ⟨{ state := update_irq { s with ie := v % 2 ^ 32 }, txByte := none },
        by simp [uart_write, SIFIVE_UART_TXFIFO, SIFIVE_UART_IE]⟩
    · exact ⟨{ state := { s with txctrl := v % 2 ^ 32 }, txByte := none },
        by simp [uart_write, SIFIVE_UART_TXFIFO, SIFIVE_UART_IE, SIFIVE_UART_TXCTRL]⟩
    · exact ⟨{ state := { s with rxctrl := v % 2 ^ 32 }, txByte := none },
        by simp [uart_write, SIFIVE_UART_TXFIFO, SIFIVE_UART_IE, SIFIVE_UART_TXCTRL,
          SIFIVE_UART_RXCTRL]⟩
    · exact ⟨{ state := { s with div := v % 2 ^ 32 }, txByte := none },
        by simp [uart_write, SIFIVE_UART_TXFIFO, SIFIVE_UART_IE, SIFIVE_UART_TXCTRL,
          SIFIVE_UART_RXCTRL, SIFIVE_UART_DIV]⟩
  · exact ⟨hw_error_write SIFIVE_UART_RXFIFO (v % 2 ^ 32),
      by simp [uart_write, SIFIVE_UART_RXFIFO, SIFIVE_UART_TXFIFO, SIFIVE_UART_IE,
        SIFIVE_UART_TXCTRL, SIFIVE_UART_RXCTRL, SIFIVE_UART_DIV]⟩
  · exact ⟨hw_error_write SIFIVE_UART_IP (v % 2 ^ 32),
      by simp [uart_write, SIFIVE_UART_IP, SIFIVE_UART_TXFIFO, SIFIVE_UART_IE,
        SIFIVE_UART_TXCTRL, SIFIVE_UART_RXCTRL, SIFIVE_UART_DIV]⟩

theorem unknown_offset_fatal_witness :
    uart_read init_state 0x1C 4 = Except.error (hw_error_read 0x1C) :=
  ((unknown_offset_fatal init_state 0x1C 0 4 (by decide)).1).1

/-- C8: the FIFO length invariant `0 ≤ rx_fifo length ≤ 8` holds in
the zeroed initial state and is preserved by every register read,
register write, and inbound byte delivery. -/
theorem rx_fifo_length_invariant :
    fifoLenInv init_state ∧
    ∀ (s : SiFiveUARTState) (op : Op), fifoLenInv s → fifoLenInv (step s op) := by
  refine ⟨by decide, ?_⟩
  intro s op h
  cases op with
  | read a =>
      by_cases ha : a = SIFIVE_UART_RXFIFO
      · subst ha
        cases hf : s.rx_fifo with
        | nil => rw [step_read_rxfifo_nil s hf]; exact h
        | cons r rest =>
            rw [step_read_rxfifo_cons s r rest hf]
            have hlen := h.2
            rw [hf] at hlen
            simp [fifoLenInv, update_irq, RX_FIFO_CAPACITY] at hlen ⊢
            omega
      · rw [step_read_other s a ha]; exact h
  | write a v =>
      by_cases h1 : a = SIFIVE_UART_TXFIFO
      · subst h1; rw [step_write_txfifo]; exact h
      · by_cases h2 : a = SIFIVE_UART_IE
        · subst h2; rw [step_write_ie]; simpa [fifoLenInv, update_irq] using h
        · by_cases h3 : a = SIFIVE_UART_TXCTRL
          · subst h3; rw [step_write_txctrl]; simpa [fifoLenInv] using h
          · by_cases h4 : a = SIFIVE_UART_RXCTRL
            · subst h4; rw [step_write_rxctrl]; simpa [fifoLenInv] using h
            · by_cases h5 : a = SIFIVE_UART_DIV
              · subst h5; rw [step_write_div]; simpa [fifoLenInv] using h
              · rw [step_write_other s a v h1 h2 h3 h4 h5]; exact h
  | rx b =>
      by_cases hb : s.rx_fifo.length < RX_FIFO_CAPACITY
      · rw [step_rx_room s b hb]
        simp [RX_FIFO_CAPACITY] at hb
        simp [fifoLenInv, update_irq, RX_FIFO_CAPACITY]
        omega
      · rw [step_rx_full s b (Nat.not_lt.mp hb)]; exact h

theorem rx_fifo_length_invariant_witness :
    fifoLenInv (step init_state (Op.rx 0x41)) :=
  rx_fifo_length_invariant.2 init_state (Op.rx 0x41) rx_fifo_length_invariant.1

end SiFiveUART
